import Mathlib

/-!
Verification of the AST resolution and cross-reference engine of a
C language server.  The relational snapshot (tables `src`, `ast`, `tok`,
`loc`) is embedded as lists of records; `db.get` becomes `List.find?`
(first matching row) and `db.all` becomes `List.filter`, matching
sqlite's behaviour on these queries.  The `Query` accessors and the
handler logic of `index.js` are translated function by function.
-/

/-- Zero-based text position, as used by the protocol layer. -/
structure Pos where
  line : Nat
  character : Nat
deriving DecidableEq, Repr

/-- One row of the `src` table: a compiled file. -/
structure SrcRow where
  number : Int
  filename : String
deriving DecidableEq, Repr

/-- One row of the `tok` table: a lexical token keyed by position,
carrying the AST node id it resolves to. -/
structure TokRow where
  decl : Nat
  src : Int
  begin_row : Nat
  begin_col : Nat
  offset : Nat
deriving DecidableEq, Repr

/-- One row of the `loc` table: a macro-expansion or inactive-region
span with a `semantics` tag. -/
structure LocRow where
  begin_src : Int
  begin_row : Nat
  begin_col : Nat
  end_src : Int
  end_row : Nat
  end_col : Nat
  semantics : Nat
deriving DecidableEq, Repr

/-- One row of the `ast` table.  The JavaScript field `class` is spelled
`cls` here because `class` is a Lean keyword. -/
structure Node where
  number : Nat
  parent_number : Nat
  final_number : Nat
  kind : String
  name : Option String
  qualified_type : Option String
  desugared_type : Option String
  specs : Nat
  cls : Nat
  ptr : String
  prev : Option String
  ref_ptr : Option String
  def_ptr : Option String
  type_ptr : Option String
  ref_kind : Option String
  ancestors : List String
  begin_src : Int
  begin_row : Nat
  begin_col : Nat
  end_src : Int
  end_row : Nat
  end_col : Nat
  src : Int
  row : Nat
  col : Nat
  exp_src : Int
  exp_row : Nat
  exp_col : Nat
deriving DecidableEq, Repr

/-- A whole translation-unit snapshot: the four read-only tables. -/
structure DB where
  ast : List Node
  srcRows : List SrcRow
  tok : List TokRow
  loc : List LocRow
deriving DecidableEq, Repr

/-- Semantics tag of a LocSpan: macro expansion. -/
def SEMANTIC_EXPANSION : Nat := 0

/-- Semantics tag of a LocSpan: inactive preprocessor region. -/
def SEMANTIC_INACTIVE : Nat := 1

/-- JavaScript truthiness of a nullable string field. -/
def truthy : Option String → Bool
  | some s => !(s = "")
  | none => false

/-- The idiom `x || d` on a nullable string. -/
def strOr (o : Option String) (d : String) : String :=
  match o with
  | some s => if s = "" then d else s
  | none => d

namespace Query

/-- `Query.src`: filename to source number; rejects when the row is
absent (`src: not found file`). -/
def src (db : DB) (file : String) : Except String Int :=
  match db.srcRows.find? (fun r => r.filename = file) with
  | none => .error ("src: not found file: " ++ file)
  | some r => .ok r.number

/-- `Query.filename`: source number to filename; rejects when the row is
absent (`src: not found number`). -/
def filename (db : DB) (s : Int) : Except String String :=
  match db.srcRows.find? (fun r => r.number = s) with
  | none => .error ("src: not found number: " ++ toString s)
  | some r => .ok r.filename

/-- `Query.node` with a numeric id: `SELECT * FROM ast WHERE number = $v`. -/
def nodeByNumber (db : DB) (n : Nat) : Option Node :=
  db.ast.find? (fun x => x.number = n)

/-- `Query.node` with a pointer identity: `SELECT * FROM ast WHERE ptr = $v`. -/
def nodeByPtr (db : DB) (p : String) : Option Node :=
  db.ast.find? (fun x => x.ptr = p)

/-- `Query.next`: the node whose `prev` equals the given pointer. -/
def next (db : DB) (p : String) : Option Node :=
  db.ast.find? (fun x => x.prev = some p)

/-- `Query.token`: the token at an exact (src, row, col) position; the
stored coordinates are 1-based, the cursor 0-based. -/
def token (db : DB) (s : Int) (pos : Pos) : Option TokRow :=
  db.tok.find? (fun t =>
    t.src = s && t.begin_row = pos.line + 1 && t.begin_col = pos.character + 1)

/-- The WHERE clause of `Query.loc`: the span's file matches and its
half-open position range contains the (1-based) position. -/
def locPred (r : LocRow) (s : Int) (row col sem : Nat) : Bool :=
  r.begin_src = s && r.end_src = s &&
  ((r.begin_row = row && r.begin_col ≤ col) || r.begin_row < row) &&
  ((r.end_row = row && col < r.end_col) || row < r.end_row) &&
  r.semantics = sem

/-- `Query.loc`: normalize a position to the begin of a containing
LocSpan of the given semantics, or `none`. -/
def loc (db : DB) (s : Int) (pos : Pos) (sem : Nat) : Option Pos :=
  (db.loc.find? (fun r => locPred r s (pos.line + 1) (pos.character + 1) sem)).map
    (fun r => ⟨r.begin_row - 1, r.begin_col - 1⟩)

/-- `Query.exp`: the LocSpan whose begin equals a node's macro-expansion
origin location. -/
def exp (db : DB) (node : Node) : Option LocRow :=
  db.loc.find? (fun r =>
    r.begin_src = node.exp_src && r.begin_row = node.exp_row && r.begin_col = node.exp_col)

/-- `Query.range`: subtree scan `number BETWEEN first AND last`. -/
def range (db : DB) (first last : Nat) : List Node :=
  db.ast.filter (fun x => first ≤ x.number && x.number ≤ last)

/-- `Query.children`: the nodes with a given `parent_number`. -/
def children (db : DB) (n : Nat) : List Node :=
  db.ast.filter (fun x => x.parent_number = n)

/-- `Query.refs`: one set-membership query for all reference expressions
whose `ref_ptr` is among the given identities. -/
def refs (db : DB) (ptrs : List String) : List Node :=
  db.ast.filter (fun x =>
    x.kind = "DeclRefExpr" &&
    (match x.ref_ptr with | some p => ptrs.contains p | none => false))

/-- `Query.caller`: the first top-level FunctionDecl whose subtree id
range strictly-below/at contains the reference id. -/
def caller (db : DB) (n : Nat) : Option Node :=
  db.ast.find? (fun x =>
    x.kind = "FunctionDecl" && x.parent_number = 0 && x.number < n && n ≤ x.final_number)

/-- `Query.callees`: DeclRefExpr nodes inside the definition's subtree
referring to a function and having a CallExpr ancestor; the
`json_each` join yields one row per matching ancestor entry. -/
def callees (db : DB) (definition : Node) : List Node :=
  db.ast.flatMap (fun x =>
    if definition.number < x.number && x.number ≤ definition.final_number &&
       x.kind = "DeclRefExpr" && x.ref_kind = some "Function"
    then x.ancestors.filterMap (fun a => if a = "CallExpr" then some x else none)
    else [])

end Query

/-- The step of `getDefinition`'s while loop: `decl = node.ref_ptr ?
follow(node.ref_ptr) : node` in `getDefinition`. -/
def declOf (db : DB) (node : Node) : Option Node :=
  match node.ref_ptr with
  | some p => if p = "" then some node else Query.nodeByPtr db p
  | none => some node

/-- The `while (true)` loop of `getDefinition`: repeatedly replace the
declaration by `Query.next` of its pointer, with explicit fuel. -/
def lastDeclAux (db : DB) : Nat → Node → Node
  | 0, d => d
  | fuel + 1, d =>
    match Query.next db d.ptr with
    | none => d
    | some n => lastDeclAux db fuel n

/-- Whether the `Query.next` loop starting at a node terminates within
the given number of steps. -/
def nextStopsWithin (db : DB) : Nat → Node → Bool
  | 0, d => (Query.next db d.ptr).isNone
  | fuel + 1, d =>
    match Query.next db d.ptr with
    | none => true
    | some n => nextStopsWithin db fuel n

/-- `getDefinition` from `index.js`: resolve `ref_ptr`, then for a
FunctionDecl walk forward to the last redeclaration. -/
def getDefinition (db : DB) (node : Node) : Option Node :=
  match declOf db node with
  | none => none
  | some d =>
    if d.kind = "FunctionDecl" then some (lastDeclAux db db.ast.length d) else some d

/-- One step of the `getDeclaration` generator: follow `prev` through
`Query.node`; `none` both when `prev` is absent and when it dangles. -/
def declStep (db : DB) (d : Node) : Option Node :=
  match d.prev with
  | none => none
  | some p => Query.nodeByPtr db p

/-- The body of the `getDeclaration` generator with explicit fuel:
collect each node reached by following `prev` backward. -/
def getDeclarationsAux (db : DB) : Nat → Node → List Node
  | 0, _ => []
  | fuel + 1, d =>
    match declStep db d with
    | none => []
    | some d' => d' :: getDeclarationsAux db fuel d'

/-- Whether the `prev` walk starting at a node terminates within the
given number of steps. -/
def declStopsWithin (db : DB) : Nat → Node → Bool
  | 0, d => (declStep db d).isNone
  | fuel + 1, d =>
    match declStep db d with
    | none => true
    | some d' => declStopsWithin db fuel d'

/-- `getDeclarations` from `index.js`: the list of prior declarations of
a definition, newest first. -/
def getDeclarations (db : DB) (definition : Node) : List Node :=
  getDeclarationsAux db db.ast.length definition

/-- The essence of `positionHandler`: look the token up at the
normalized position `loc || pos`. -/
def resolveToken (db : DB) (s : Int) (pos : Pos) : Option TokRow :=
  Query.token db s ((Query.loc db s pos SEMANTIC_EXPANSION).getD pos)

/-- Structured rich text, a tagged variant of the `mark.js` class
hierarchy (`Mark` with string or array content, `Code`, `CodeInline`,
`Emphasis`, `Strong`). -/
inductive MarkV where
  | text : String → MarkV
  | seq : List MarkV → MarkV
  | code : String → MarkV
  | codeInline : String → MarkV
  | emphasis : String → MarkV
  | strong : String → MarkV
deriving Repr

/-- The `replace` of literal underscores and asterisks by their escaped
forms, as in `Emphasis.toText`. -/
def escMD (s : String) : String :=
  String.join (s.data.map (fun c =>
    if c = '_' ∨ c = '*' then String.mk ['\\', c] else String.mk [c]))

mutual

/-- `toText` of `mark.js`: render a mark tree to markdown. -/
def markText : MarkV → String
  | .text s => s
  | .seq ms => markListText ms
  | .code s => "`" ++ s ++ "`"
  | .codeInline s => "`" ++ s ++ "`"
  | .emphasis s => "*" ++ escMD s ++ "*"
  | .strong s => "**" ++ escMD s ++ "**"

/-- `toText` on array content: concatenation of the parts. -/
def markListText : List MarkV → String
  | [] => ""
  | m :: ms => markText m ++ markListText ms

end

/-- The constant `mark.space`. -/
def spaceM : MarkV := .text " "

/-- The constant `mark.colon`. -/
def colonM : MarkV := .text ":"

/-- The constant `mark.lineEnding`. -/
def lineEndingM : MarkV := .text "\n"

/-- The constant `mark.newLine`. -/
def newLineM : MarkV := .text "\n\n"

/-- The constant `mark.thematicBreak`. -/
def thematicBreakM : MarkV := .text "---"

/-- `mark.Indent`: a run of spaces (`padEnd` clamps negatives to zero). -/
def indentM (n : Int) : MarkV := .text (String.mk (List.replicate n.toNat ' '))

/-- `mark.CodeBlock`: a fenced code block with the given indent and
language tag; the content strings are concatenated. -/
def codeBlockM (codes : List String) (indent : Int) (lang : String) : MarkV :=
  .seq [indentM indent, .text "```", .text lang, lineEndingM,
        indentM indent, .text (String.join codes), lineEndingM,
        indentM indent, .text "```", newLineM]

/-- `BulletListItem.isMarker`. -/
def isMarkerC (c : Char) : Bool := c = '-' ∨ c = '+' ∨ c = '*'

/-- `BulletListItem.isWhite`. -/
def isWhiteC (c : Char) : Bool := c = ' ' ∨ c = '\t' ∨ c = '\n'

/-- `mark.BulletListItem`: `- ` plus the text, with a leading backslash
when the text itself starts like a list marker. -/
def bulletListItemM (s : String) : MarkV :=
  .seq [.text "- ",
        .text (match s.data with
          | c1 :: c2 :: _ => if isMarkerC c1 && isWhiteC c2 then "\\" else ""
          | _ => ""),
        .text s]

/-- `getSpecsMarks`: storage-class and qualifier keywords decoded from
the `specs` bitmask, in ascending key order. -/
def getSpecsMarks (sp : Nat) : List MarkV :=
  [(1, "extern"), (2, "static"), (4, "inline"), (8, "const"), (16, "volatile")].flatMap
    (fun kv => if sp &&& kv.1 ≠ 0 then [MarkV.emphasis kv.2, spaceM] else [])

/-- The `indents.set` of the hover handler: JavaScript `Map.set`, an
overwrite when the key exists and an append otherwise. -/
def msetA (m : List (Nat × Int)) (k : Nat) (v : Int) : List (Nat × Int) :=
  if (m.lookup k).isSome then
    m.map (fun kv => if kv.1 = k then (k, v) else kv)
  else
    m ++ [(k, v)]

/-- The body of the indent loop: `indents.set(number, parentIndent ==
undefined ? 0 : parentIndent + 2)`. -/
def indentStep (m : List (Nat × Int)) (x : Node) : List (Nat × Int) :=
  msetA m x.number (match m.lookup x.parent_number with
    | none => 0
    | some pi => pi + 2)

/-- The indent computation of the macro-expansion hover rendering: the
first node gets indent 0, every later node its parent's
already-computed indent plus 2, or 0 when the parent has none. -/
def computeIndents (nodes : List Node) : List (Nat × Int) :=
  match nodes with
  | [] => []
  | n0 :: rest => rest.foldl indentStep [(n0.number, 0)]

/-- The `indents.get(number) || 0` lookup of the hover handler. -/
def indentOf (m : List (Nat × Int)) (x : Node) : Int :=
  match m.lookup x.number with
  | some v => v
  | none => 0

/-- The inner token loop of the hover handler: the first token's name,
then each following token's name, preceded by a space when its
hasLeadingSpace bit (32) is set. -/
def codesOf : List Node → List String
  | [] => []
  | y :: ys =>
    strOr y.name "Never" ::
      ys.flatMap (fun z =>
        (if z.specs &&& 32 ≠ 0 then [" "] else []) ++ [strOr z.name "Never"])

/-- The middle token loop of the hover handler: split a run of Token
nodes into fenced code blocks, one per maximal group whose stored
indent equals the group head's indent. -/
def tokenChunks (m : List (Nat × Int)) : List Node → List MarkV
  | [] => []
  | y :: ys =>
    let indent := indentOf m y
    let same := fun z : Node => z.kind == "Token" && m.lookup z.number == some indent
    codeBlockM (codesOf (y :: ys.takeWhile same)) indent "c" ::
      tokenChunks m (ys.dropWhile same)
termination_by l => l.length
decreasing_by
  simp only [List.length_cons]
  exact Nat.lt_succ_of_le (List.dropWhile_suffix _).length_le

/-- The outer loop of the macro-expansion hover rendering: a bullet line
for each non-Token node, followed by the code blocks of the run of
Token nodes after it. -/
def expansionOutline (m : List (Nat × Int)) : List Node → List MarkV
  | [] => []
  | x :: rest =>
    let isTok := fun z : Node => z.kind == "Token"
    [indentM (indentOf m x), bulletListItemM (strOr x.name "Never"), newLineM] ++
    tokenChunks m (rest.takeWhile isTok) ++
    expansionOutline m (rest.dropWhile isTok)
termination_by l => l.length
decreasing_by
  simp only [List.length_cons]
  exact Nat.lt_succ_of_le (List.dropWhile_suffix _).length_le

/-- `hoverHandler` of `index.js`, restricted to a present node: build
the mark list for the node; recursion into a referenced macro
definition and into aggregate children is bounded by fuel (any fuel
larger than the recursion depth gives the handler's behaviour), and
the `Query.filename` rejection propagates as an error. -/
def hoverMark (db : DB) : Nat → Node → Except String MarkV
  | 0, _ => .error "recursion limit"
  | fuel + 1, node => do
    let kindMarks ←
      match node.kind with
      | "TypedefDecl" => pure [MarkV.emphasis "typedef", spaceM]
      | "FieldDecl" => pure [MarkV.emphasis "field", spaceM]
      | "RecordDecl" =>
        pure (if node.cls = 1 then [MarkV.emphasis "struct", spaceM] else [])
      | "MacroDecl" =>
        pure [MarkV.emphasis "#define", spaceM,
              MarkV.strong (strOr ((Query.nodeByNumber db node.parent_number).bind
                (fun p => p.name)) "Never")]
      | "ExpansionDecl" =>
        match node.ref_ptr with
        | none => pure []
        | some p =>
          if p = "" then pure []
          else
            match Query.nodeByPtr db p with
            | none => pure []
            | some rn => do
              let v ← hoverMark db fuel rn
              match Query.range db node.number node.final_number with
              | [] => Except.error "TypeError: reading property of undefined"
              | n0 :: rest =>
                let ind := computeIndents (n0 :: rest)
                pure ([v, newLineM, thematicBreakM, newLineM] ++
                      expansionOutline ind (n0 :: rest))
      | _ => pure []
    let tailMarks ←
      if node.kind = "ExpansionDecl" then
        pure []
      else do
        let nameMarks :=
          if truthy node.name then
            [(if node.kind = "MacroDecl" then MarkV.emphasis else MarkV.strong)
              (node.name.getD "")]
          else []
        let bodyMarks ←
          if node.cls ≠ 0 then do
            let children := Query.children db node.number
            let heads := if children.length ≠ 0 then [newLineM, thematicBreakM] else []
            let rest ← children.foldlM (fun acc c => do
              let v ← hoverMark db fuel c
              pure (acc ++ [lineEndingM, lineEndingM, v])) ([] : List MarkV)
            pure (heads ++ rest)
          else
            pure ((if truthy node.qualified_type then
                     [colonM, spaceM, MarkV.emphasis (node.qualified_type.getD "")]
                   else []) ++
                  (if truthy node.desugared_type &&
                      node.desugared_type ≠ node.qualified_type then
                     [spaceM, MarkV.code (node.desugared_type.getD "")]
                   else []))
        let srcMarks ←
          if node.begin_src ≠ -1 then
            match Query.filename db node.begin_src with
            | .error e => Except.error e
            | .ok fn =>
              pure (if fn ≠ "" then
                      [newLineM, thematicBreakM, newLineM,
                       MarkV.codeInline fn, spaceM, MarkV.emphasis "provided"]
                    else [])
          else pure ([] : List MarkV)
        pure (nameMarks ++ bodyMarks ++ srcMarks)
    pure (MarkV.seq (getSpecsMarks node.specs ++ kindMarks ++ tailMarks))

/-- `markHandler` composed with `hoverHandler`: the rendered hover text. -/
def hoverText (db : DB) (fuel : Nat) (node : Node) : Except String String :=
  (hoverMark db fuel node).map markText

/-- A protocol range: start and end positions. -/
structure LspRange where
  start : Pos
  stop : Pos
deriving DecidableEq, Repr

/-- The text-document interface used by `getRanges`: offset/position
conversion is provided by an external library and is kept abstract. -/
structure TextDoc where
  offsetAt : Pos → Nat
  positionAt : Nat → Pos

/-- `getRanges` of `index.js`: the full extent range and the name
selection range of a node, via the document's offset arithmetic. -/
def getRanges (node : Node) (doc : TextDoc) : LspRange × LspRange :=
  let namePosition : Pos :=
    if node.row > 0 then ⟨node.row - 1, node.col - 1⟩
    else ⟨node.begin_row - 1, node.begin_col - 1⟩
  let nameEndOffset :=
    doc.offsetAt namePosition +
      (match node.name with
       | some s => if s = "" then 1 else s.length
       | none => 1)
  let range : LspRange :=
    ⟨⟨node.begin_row - 1, node.begin_col - 1⟩,
     doc.positionAt
       (max (doc.offsetAt ⟨node.end_row - 1, node.end_col - 1⟩ + 1) nameEndOffset)⟩
  let selectionRange : LspRange := ⟨namePosition, doc.positionAt nameEndOffset⟩
  (range, selectionRange)

/-- `getSymbolKind` of `index.js` (protocol numeric kinds; Union and
TypeAlias are the extension values 100 and 101). -/
def getSymbolKind (node : Node) : Nat :=
  match node.kind with
  | "FunctionDecl" => 12
  | "RecordDecl" =>
    if node.cls = 1 then 23 else if node.cls = 2 then 100
    else if node.cls = 3 then 10 else 0
  | "VarDecl" => 13
  | "TypedefDecl" => 101
  | _ => 0

/-- The `filename.startsWith("<")` test of `getUri`, written on the
character list so it evaluates. -/
def startsWithLt (fn : String) : Bool :=
  match fn.data with
  | c :: _ => c = '<'
  | [] => false

/-- `getUri` of `index.js`: the node's file as a `file://` URI, `none`
for synthetic (angle-bracket) or empty filenames; the missing-row
rejection of `Query.filename` propagates. -/
def getUri (db : DB) (node : Node) : Except String (Option String) :=
  match Query.filename db node.begin_src with
  | .error e => .error e
  | .ok fn =>
    if fn = "" || startsWithLt fn then .ok none
    else .ok (some ("file://" ++ fn))

/-- `getLink` of `index.js`: URI plus the two ranges of `getRanges`,
reading the document through the given document environment. -/
def getLink (db : DB) (docs : String → TextDoc) (node : Node) :
    Except String (Option (String × LspRange × LspRange)) :=
  match getUri db node with
  | .error e => .error e
  | .ok none => .ok none
  | .ok (some uri) =>
    let rs := getRanges node (docs uri)
    .ok (some (uri, rs.1, rs.2))

/-- The range reported for a macro-expanded reference: the expansion
span looked up by `Query.exp`. -/
def expRange (r : LocRow) : LspRange :=
  ⟨⟨r.begin_row - 1, r.begin_col - 1⟩, ⟨r.end_row - 1, r.end_col - 1⟩⟩

/-- Lookup in the outgoing-call `group` object, keyed by target pointer. -/
def lookupGroup (g : List (String × Node × List LspRange)) (k : String) :
    Option (Node × List LspRange) :=
  (g.find? (fun e => e.1 = k)).map (fun e => e.2)

/-- `fromRanges.push(...)` on the entry of a given key. -/
def appendRangeIn (g : List (String × Node × List LspRange)) (k : String)
    (r : LspRange) : List (String × Node × List LspRange) :=
  g.map (fun e => if e.1 = k then (e.1, e.2.1, e.2.2 ++ [r]) else e)

/-- One iteration of the callee loop of `onOutgoingCalls`: resolve the
call site's definition, open its group if absent, and append the call
site's range (the expansion span when `exp_row` is set, else the
selection range). -/
def addCallee (db : DB) (doc : TextDoc) (g : List (String × Node × List LspRange))
    (node : Node) : List (String × Node × List LspRange) :=
  match getDefinition db node with
  | none => g
  | some target =>
    let g1 :=
      if (lookupGroup g target.ptr).isSome then g
      else g ++ [(target.ptr, target, [])]
    if node.exp_row ≠ 0 then
      match Query.exp db node with
      | some r => appendRangeIn g1 target.ptr (expRange r)
      | none => g1
    else
      appendRangeIn g1 target.ptr (getRanges node doc).2

/-- The callee loop of `onOutgoingCalls`: group call sites by the ptr
identity of their resolved target definition. -/
def outgoingGroups (db : DB) (doc : TextDoc) (callees : List Node) :
    List (String × Node × List LspRange) :=
  callees.foldl (addCallee db doc) []

/-- One outgoing-call result entry; the field `target` is `to` in the
source. -/
structure OutgoingCall where
  target : Node
  uri : String
  range : LspRange
  selectionRange : LspRange
  fromRanges : List LspRange
deriving Repr

/-- The result loop of `onOutgoingCalls`: keep the groups whose target
has a link, a symbol kind and a name. -/
def buildOutgoing (db : DB) (docs : String → TextDoc) :
    List (String × Node × List LspRange) → Except String (List OutgoingCall)
  | [] => .ok []
  | (_, tgt, ranges) :: rest =>
    match getLink db docs tgt with
    | .error e => .error e
    | .ok none => buildOutgoing db docs rest
    | .ok (some (uri, r, sel)) =>
      if getSymbolKind tgt = 0 || !truthy tgt.name then
        buildOutgoing db docs rest
      else
        match buildOutgoing db docs rest with
        | .error e => .error e
        | .ok tail =>
          .ok ({ target := tgt, uri := uri, range := r, selectionRange := sel,
                 fromRanges := ranges } :: tail)

/-- `onOutgoingCalls` of `index.js`, given the call-hierarchy item's
`data` (the definition followed by its declarations): `none` when the
definition has no real file, else the grouped outgoing calls. -/
def onOutgoingCalls (db : DB) (docs : String → TextDoc) (itemData : List Node) :
    Except String (Option (List OutgoingCall)) :=
  match itemData with
  | [] => .error "TypeError: reading property of undefined"
  | definition :: _ =>
    match getUri db definition with
    | .error e => .error e
    | .ok none => .ok none
    | .ok (some uri) =>
      let doc := docs uri
      let g := outgoingGroups db doc (Query.callees db definition)
      match buildOutgoing db docs g with
      | .error e => .error e
      | .ok result => .ok (some result)

/-- One collected semantic-token item of `onTextDocumentSemanticTokens`. -/
structure SemTokItem where
  line : Nat
  character : Nat
  length : Nat
  tokenType : Nat
  tokenModifier : Nat
deriving DecidableEq, Repr

/-- The later items of the delta encoding (`flatMap` with `i > 0`): each
item relative to its predecessor. -/
def encodeRest (prev : SemTokItem) : List SemTokItem → List Nat
  | [] => []
  | item :: rest =>
    (if item.line = prev.line then
       [0, item.character - prev.character, item.length, item.tokenType,
        item.tokenModifier]
     else
       [item.line - prev.line, item.character, item.length, item.tokenType,
        item.tokenModifier]) ++ encodeRest item rest

/-- The delta encoding of `onTextDocumentSemanticTokens` on an already
sorted item list: the first item absolute, the rest relative. -/
def encodeTokens : List SemTokItem → List Nat
  | [] => []
  | item :: rest =>
    [item.line, item.character, item.length, item.tokenType, item.tokenModifier] ++
      encodeRest item rest

/-- Decoding of a delta-encoded stream as described by the protocol (and
the claim): accumulate `deltaLine`, and `deltaStart` on the same line. -/
def decodeTokens (prevLine prevChar : Nat) : List Nat → List SemTokItem
  | dl :: ds :: len :: tt :: tm :: rest =>
    let line := prevLine + dl
    let ch := if dl = 0 then prevChar + ds else ds
    ⟨line, ch, len, tt, tm⟩ :: decodeTokens line ch rest
  | _ => []

/-- The sort order of `onTextDocumentSemanticTokens`: by line, then by
character. -/
def semTokLE (a b : SemTokItem) : Prop :=
  a.line < b.line ∨ (a.line = b.line ∧ a.character ≤ b.character)

/-- C9: the filename-to-number and number-to-filename accessors reject
with an error whenever the required `src` row is absent, while node,
children and range lookups yield an absent value or an empty list. -/
theorem c9_notfound_vs_empty (db : DB) (file : String) (s : Int) (k a b : Nat)
    (p : String) :
    ((∀ r ∈ db.srcRows, r.filename ≠ file) →
      Query.src db file = .error ("src: not found file: " ++ file)) ∧
    ((∀ r ∈ db.srcRows, r.number ≠ s) →
      Query.filename db s = .error ("src: not found number: " ++ toString s)) ∧
    ((∀ x ∈ db.ast, x.number ≠ k) → Query.nodeByNumber db k = none) ∧
    ((∀ x ∈ db.ast, x.ptr ≠ p) → Query.nodeByPtr db p = none) ∧
    ((∀ x ∈ db.ast, x.parent_number ≠ k) → Query.children db k = []) ∧
    ((∀ x ∈ db.ast, ¬(a ≤ x.number ∧ x.number ≤ b)) → Query.range db a b = []) := by
  refine ⟨fun h => ?_, fun h => ?_, fun h => ?_, fun h => ?_, fun h => ?_, fun h => ?_⟩
  · have : db.srcRows.find? (fun r => r.filename = file) = none := by
      rw [List.find?_eq_none]; intro r hr; simpa using h r hr
    simp [Query.src, this]
  · have : db.srcRows.find? (fun r => r.number = s) = none := by
      rw [List.find?_eq_none]; intro r hr; simpa using h r hr
    simp [Query.filename, this]
  · rw [Query.nodeByNumber, List.find?_eq_none]
    intro x hx; simpa using h x hx
  · rw [Query.nodeByPtr, List.find?_eq_none]
    intro x hx; simpa using h x hx
  · rw [Query.children, List.filter_eq_nil_iff]
    intro x hx; simpa using h x hx
  · rw [Query.range, List.filter_eq_nil_iff]
    intro x hx; simpa using h x hx

/-- Witness for C9 on the empty snapshot. -/
theorem c9_notfound_vs_empty_witness :
    Query.src ⟨[], [], [], []⟩ "/a.c" = .error "src: not found file: /a.c" ∧
    Query.filename ⟨[], [], [], []⟩ 1 = .error "src: not found number: 1" ∧
    Query.nodeByNumber ⟨[], [], [], []⟩ 3 = none ∧
    Query.nodeByPtr ⟨[], [], [], []⟩ "0x1" = none ∧
    Query.children ⟨[], [], [], []⟩ 3 = [] ∧
    Query.range ⟨[], [], [], []⟩ 1 2 = [] := by
  have h := c9_notfound_vs_empty ⟨[], [], [], []⟩ "/a.c" 1 3 1 2 "0x1"
  exact ⟨h.1 (by simp), h.2.1 (by simp), h.2.2.1 (by simp), h.2.2.2.1 (by simp),
         h.2.2.2.2.1 (by simp), h.2.2.2.2.2 (by simp)⟩

/-- C4: under the preorder-subtree invariant (top-level subtree id
ranges are pairwise disjoint), `Query.caller` returns the unique
top-level FunctionDecl whose range `(number, finalNumber]` contains the
reference id, and `none` when no such node exists. -/
theorem c4_caller_unique (db : DB) (n : Nat)
    (hinv : ∀ a ∈ db.ast, ∀ b ∈ db.ast, a.parent_number = 0 → b.parent_number = 0 →
      a ≠ b → a.final_number < b.number ∨ b.final_number < a.number) :
    (∀ x ∈ db.ast, x.kind = "FunctionDecl" → x.parent_number = 0 →
      x.number < n → n ≤ x.final_number → Query.caller db n = some x) ∧
    ((∀ x ∈ db.ast, ¬(x.kind = "FunctionDecl" ∧ x.parent_number = 0 ∧
        x.number < n ∧ n ≤ x.final_number)) → Query.caller db n = none) := by
  constructor
  · intro x hx h1 h2 h3 h4
    have hsome : (db.ast.find? (fun y => y.kind = "FunctionDecl" &&
        y.parent_number = 0 && y.number < n && n ≤ y.final_number)).isSome := by
      rw [List.find?_isSome]
      exact ⟨x, hx, by simp [h1, h2, h3, h4]⟩
    obtain ⟨y, hy⟩ := Option.isSome_iff_exists.mp hsome
    have hymem := List.mem_of_find?_eq_some hy
    have hyprop := List.find?_some hy
    simp only [Bool.and_eq_true, decide_eq_true_eq] at hyprop
    obtain ⟨⟨⟨hy1, hy2⟩, hy3⟩, hy4⟩ := hyprop
    have hxy : y = x := by
      by_contra hne
      rcases hinv y hymem x hx hy2 h2 hne with hlt | hlt <;> omega
    rw [Query.caller, hy, hxy]
  · intro h
    rw [Query.caller, List.find?_eq_none]
    intro x hx
    have := h x hx
    simp only [Bool.and_eq_true, decide_eq_true_eq]
    rintro ⟨⟨⟨k1, k2⟩, k3⟩, k4⟩
    exact this ⟨k1, k2, k3, k4⟩

/-- A node record with every field at a neutral default, used to state
concrete instances compactly. -/
def baseNode : Node :=
  { number := 0, parent_number := 0, final_number := 0, kind := "",
    name := none, qualified_type := none, desugared_type := none,
    specs := 0, cls := 0, ptr := "", prev := none, ref_ptr := none,
    def_ptr := none, type_ptr := none, ref_kind := none, ancestors := [],
    begin_src := -1, begin_row := 1, begin_col := 1, end_src := -1,
    end_row := 1, end_col := 1, src := 0, row := 0, col := 0,
    exp_src := -1, exp_row := 0, exp_col := 0 }

/-- A top-level function declaration covering ids 2..10, for the C4
witness. -/
def c4foo : Node :=
  { baseNode with
    kind := "FunctionDecl", number := 1, final_number := 10,
    parent_number := 0, ptr := "pf" }

/-- A snapshot holding only `c4foo`. -/
def c4db : DB := ⟨[c4foo], [], [], []⟩

/-- Witness for C4: the enclosing function of reference id 5 is `c4foo`,
and of id 20 there is none. -/
theorem c4_caller_unique_witness :
    Query.caller c4db 5 = some c4foo ∧ Query.caller c4db 20 = none := by
  refine ⟨(c4_caller_unique c4db 5 ?_).1 c4foo ?_ ?_ ?_ ?_ ?_,
          (c4_caller_unique c4db 20 ?_).2 ?_⟩ <;> decide

/-- C3: whenever some LocSpan of Expansion semantics matches the file
and its half-open range contains the (already head-normalized) cursor,
position resolution rewrites the cursor to a matching span's begin
position before the token lookup; if that begin position normalizes to
itself, the cursor resolves exactly as a cursor placed at the begin
position would. -/
theorem c3_macro_cursor_normalization (db : DB) (s : Int) (pos : Pos)
    (h : ∃ r ∈ db.loc,
      Query.locPred r s (pos.line + 1) (pos.character + 1) SEMANTIC_EXPANSION = true) :
    ∃ r ∈ db.loc,
      Query.locPred r s (pos.line + 1) (pos.character + 1) SEMANTIC_EXPANSION = true ∧
      Query.loc db s pos SEMANTIC_EXPANSION = some ⟨r.begin_row - 1, r.begin_col - 1⟩ ∧
      resolveToken db s pos = Query.token db s ⟨r.begin_row - 1, r.begin_col - 1⟩ ∧
      (Query.loc db s ⟨r.begin_row - 1, r.begin_col - 1⟩ SEMANTIC_EXPANSION =
          some ⟨r.begin_row - 1, r.begin_col - 1⟩ →
        resolveToken db s pos = resolveToken db s ⟨r.begin_row - 1, r.begin_col - 1⟩) := by
  have hsome : (db.loc.find? (fun r =>
      Query.locPred r s (pos.line + 1) (pos.character + 1) SEMANTIC_EXPANSION)).isSome := by
    rw [List.find?_isSome]
    obtain ⟨r, hr, hp⟩ := h
    exact ⟨r, hr, hp⟩
  obtain ⟨r0, hr0⟩ := Option.isSome_iff_exists.mp hsome
  have hloc : Query.loc db s pos SEMANTIC_EXPANSION =
      some ⟨r0.begin_row - 1, r0.begin_col - 1⟩ := by
    simp [Query.loc, hr0]
  refine ⟨r0, List.mem_of_find?_eq_some hr0, by simpa using List.find?_some hr0,
          hloc, ?_, ?_⟩
  · simp [resolveToken, hloc]
  · intro hself
    simp [resolveToken, hloc, hself]

/-- An Inactive-region span `[row5:col3, row5:col20)` in file 1. -/
def c3ispan : LocRow :=
  { begin_src := 1, begin_row := 5, begin_col := 3, end_src := 1,
    end_row := 5, end_col := 20, semantics := 1 }

/-- A snapshot whose only LocSpan is the Inactive span, with distinct
tokens at the cursor position and at the span's begin. -/
def c3idb : DB :=
  ⟨[], [⟨1, "/a.c"⟩],
   [{ decl := 42, src := 1, begin_row := 5, begin_col := 3, offset := 0 },
    { decl := 7, src := 1, begin_row := 5, begin_col := 10, offset := 0 }],
   [c3ispan]⟩

/-- Counterexample to C3 as stated: the cursor at row 5 col 10 lies
inside a LocSpan with matching file whose half-open range contains it,
but the span's semantics is Inactive, and the position resolution only
queries spans of Expansion semantics — the cursor is not replaced by
the span's begin position, and the token lookup happens at the original
cursor, which here resolves to a different token than the begin
position would. -/
theorem c3_inactive_span_cex :
    c3ispan ∈ c3idb.loc ∧
    c3ispan.semantics = SEMANTIC_INACTIVE ∧
    Query.locPred c3ispan 1 5 10 c3ispan.semantics = true ∧
    Query.loc c3idb 1 ⟨4, 9⟩ SEMANTIC_EXPANSION = none ∧
    resolveToken c3idb 1 ⟨4, 9⟩ = Query.token c3idb 1 ⟨4, 9⟩ ∧
    resolveToken c3idb 1 ⟨4, 9⟩ ≠ Query.token c3idb 1 ⟨4, 2⟩ := by
  refine ⟨by decide, rfl, by decide, by decide, by decide, by decide⟩

/-- The Expansion span `[row5:col3, row5:col20)` of the C3 scenario. -/
def c3span : LocRow :=
  { begin_src := 1, begin_row := 5, begin_col := 3, end_src := 1,
    end_row := 5, end_col := 20, semantics := 0 }

/-- A snapshot with the scenario span and one token at row 5 col 3. -/
def c3db : DB :=
  ⟨[], [⟨1, "/a.c"⟩], [{ decl := 42, src := 1, begin_row := 5, begin_col := 3, offset := 0 }],
   [c3span]⟩

/-- Witness for C3: the cursor at row 5 col 10 (zero-based 4:9) is
normalized to row 5 col 3 and resolves exactly as a cursor at row 5
col 3 (zero-based 4:2) would. -/
theorem c3_macro_cursor_normalization_witness :
    (∃ r ∈ c3db.loc,
      Query.locPred r 1 5 10 SEMANTIC_EXPANSION = true ∧
      Query.loc c3db 1 ⟨4, 9⟩ SEMANTIC_EXPANSION = some ⟨r.begin_row - 1, r.begin_col - 1⟩ ∧
      resolveToken c3db 1 ⟨4, 9⟩ = Query.token c3db 1 ⟨r.begin_row - 1, r.begin_col - 1⟩ ∧
      (Query.loc c3db 1 ⟨r.begin_row - 1, r.begin_col - 1⟩ SEMANTIC_EXPANSION =
          some ⟨r.begin_row - 1, r.begin_col - 1⟩ →
        resolveToken c3db 1 ⟨4, 9⟩ = resolveToken c3db 1 ⟨r.begin_row - 1, r.begin_col - 1⟩)) ∧
    resolveToken c3db 1 ⟨4, 9⟩ = resolveToken c3db 1 ⟨4, 2⟩ := by
  constructor
  · exact c3_macro_cursor_normalization c3db 1 ⟨4, 9⟩ ⟨c3span, by decide, by decide⟩
  · obtain ⟨r, hr, _, _, hres, hcond⟩ :=
      c3_macro_cursor_normalization c3db 1 ⟨4, 9⟩ ⟨c3span, by decide, by decide⟩
    have hr0 : r = c3span := by
      have : r ∈ [c3span] := hr
      simpa using this
    subst hr0
    exact hcond (by decide)

/-- Lookup on a cons cell of an association list, as an if. -/
theorem lookupA_cons (a : Nat) (v : Int) (m : List (Nat × Int)) (k : Nat) :
    ((a, v) :: m).lookup k = if k = a then some v else m.lookup k := by
  by_cases h : k = a
  · simp [List.lookup, h]
  · have hb : (k == a) = false := beq_eq_false_iff_ne.mpr h
    simp [List.lookup, h, hb]

/-- Lookup after the overwrite branch of `msetA`. -/
theorem lookup_mapReplace (m : List (Nat × Int)) (k k' : Nat) (v : Int) :
    ((m.map (fun kv => if kv.1 = k then (k, v) else kv)).lookup k') =
      if k' = k then (m.lookup k).map (fun _ => v) else m.lookup k' := by
  induction m with
  | nil => by_cases hk : k' = k <;> simp [List.lookup, hk]
  | cons hd tl ih =>
    obtain ⟨a, b⟩ := hd
    by_cases hak : a = k
    · subst hak
      by_cases hk : k' = a <;> simp [lookupA_cons, hk, ih]
    · have hka : ¬k = a := fun e => hak e.symm
      by_cases hk : k' = a
      · subst hk
        simp [lookupA_cons, hak, hka]
      · simp [lookupA_cons, hk, hak, hka, ih]

/-- Lookup after the append branch of `msetA`. -/
theorem lookup_append_single (m : List (Nat × Int)) (k k' : Nat) (v : Int) :
    ((m ++ [(k, v)]).lookup k') =
      match m.lookup k' with
      | some w => some w
      | none => if k' = k then some v else none := by
  induction m with
  | nil =>
    rw [List.nil_append, lookupA_cons]
    simp [List.lookup]
  | cons hd tl ih =>
    obtain ⟨a, b⟩ := hd
    by_cases hk : k' = a <;> simp [lookupA_cons, hk, ih]

/-- The `Map.set` model behaves as a map update for `lookup`. -/
theorem msetA_lookup (m : List (Nat × Int)) (k k' : Nat) (v : Int) :
    (msetA m k v).lookup k' = if k' = k then some v else m.lookup k' := by
  unfold msetA
  by_cases hm : (m.lookup k).isSome
  · rw [if_pos hm, lookup_mapReplace]
    by_cases hk : k' = k
    · obtain ⟨w, hw⟩ := Option.isSome_iff_exists.mp hm
      simp [hk, hw]
    · simp [hk]
  · rw [if_neg hm, lookup_append_single]
    have hnone : m.lookup k = none := Option.not_isSome_iff_eq_none.mp hm
    by_cases hk : k' = k
    · subst hk
      simp [hnone]
    · cases h2 : m.lookup k' <;> simp [hk, h2]

/-- Invariants of the indent fold: presence of keys is preserved, every
processed node's key is present, and every stored indent stays
non-negative. -/
theorem indentsAux_props (rest : List Node) (m : List (Nat × Int))
    (hm : ∀ k v, m.lookup k = some v → 0 ≤ v) :
    (∀ k, (m.lookup k).isSome → ((rest.foldl indentStep m).lookup k).isSome) ∧
    (∀ y ∈ rest, ((rest.foldl indentStep m).lookup y.number).isSome) ∧
    (∀ k v, (rest.foldl indentStep m).lookup k = some v → 0 ≤ v) := by
  induction rest generalizing m with
  | nil => exact ⟨fun k h => h, by simp, hm⟩
  | cons x rest ih =>
    have hw : 0 ≤ (match m.lookup x.parent_number with
        | none => (0 : Int)
        | some pi => pi + 2) := by
      cases hpi : m.lookup x.parent_number with
      | none => simp [hpi]
      | some pi =>
        have h0 := hm _ _ hpi
        simp only [hpi]
        exact add_nonneg h0 (by norm_num)
    have hm' : ∀ k v, ((indentStep m x).lookup k) = some v → 0 ≤ v := by
      intro k v h
      rw [indentStep, msetA_lookup] at h
      by_cases hk : k = x.number
      · rw [if_pos hk] at h
        cases h
        exact hw
      · rw [if_neg hk] at h
        exact hm _ _ h
    obtain ⟨ih1, ih2, ih3⟩ := ih (indentStep m x) hm'
    refine ⟨fun k hk => ih1 k ?_, ?_, ih3⟩
    · rw [indentStep, msetA_lookup]
      by_cases hkx : k = x.number
      · simp [hkx]
      · simpa [hkx] using hk
    · intro y hy
      rcases List.mem_cons.mp hy with rfl | hy
      · refine ih1 y.number ?_
        rw [indentStep, msetA_lookup]
        simp
      · exact ih2 y hy

/-- C10: on a nonempty flattened range, every node is assigned an
indent (nodes whose parent has no already-computed indent get 0, so the
map is total) and every stored indent is non-negative. -/
theorem c10_indents_total (nodes : List Node) (hne : nodes ≠ []) (x : Node)
    (hx : x ∈ nodes) :
    ∃ v : Int, (computeIndents nodes).lookup x.number = some v ∧ 0 ≤ v := by
  match nodes with
  | n0 :: rest =>
    have base : ∀ k v, ([(n0.number, (0 : Int))].lookup k) = some v → 0 ≤ v := by
      intro k v hkv
      rw [lookupA_cons] at hkv
      by_cases hk : k = n0.number
      · rw [if_pos hk] at hkv
        cases hkv
        exact le_refl 0
      · rw [if_neg hk] at hkv
        cases hkv
    obtain ⟨p1, p2, p3⟩ := indentsAux_props rest [(n0.number, 0)] base
    have hsome : ((computeIndents (n0 :: rest)).lookup x.number).isSome := by
      rcases List.mem_cons.mp hx with rfl | hx'
      · refine p1 x.number ?_
        rw [lookupA_cons]
        simp
      · exact p2 x hx'
    obtain ⟨v, hv⟩ := Option.isSome_iff_exists.mp hsome
    exact ⟨v, hv, p3 _ _ hv⟩

/-- Witness for C10 on a three-node range whose middle node has an
out-of-range parent. -/
theorem c10_indents_total_witness :
    (∃ v : Int,
      (computeIndents [{ baseNode with number := 7 },
                       { baseNode with number := 8, parent_number := 99 },
                       { baseNode with number := 9, parent_number := 8 }]).lookup 8 =
        some v ∧ 0 ≤ v) := by
  have h := c10_indents_total
    [{ baseNode with number := 7 },
     { baseNode with number := 8, parent_number := 99 },
     { baseNode with number := 9, parent_number := 8 }]
    (by decide) { baseNode with number := 8, parent_number := 99 } (by decide)
  exact h

/-- C7: for a flattened list `[A, B, C, D]` with `B`, `C`, `D` parented
on `A`, `B`, `A` respectively (all ids distinct), the computed indents
are 0, 2, 4, 2. -/
theorem c7_expansion_indents (A B C D : Node)
    (hB : B.parent_number = A.number) (hC : C.parent_number = B.number)
    (hD : D.parent_number = A.number)
    (hba : B.number ≠ A.number) (hca : C.number ≠ A.number)
    (hcb : C.number ≠ B.number) (hda : D.number ≠ A.number)
    (hdb : D.number ≠ B.number) (hdc : D.number ≠ C.number) :
    (computeIndents [A, B, C, D]).lookup A.number = some 0 ∧
    (computeIndents [A, B, C, D]).lookup B.number = some 2 ∧
    (computeIndents [A, B, C, D]).lookup C.number = some 4 ∧
    (computeIndents [A, B, C, D]).lookup D.number = some 2 := by
  have e1 : indentStep [(A.number, (0 : Int))] B =
      msetA [(A.number, 0)] B.number 2 := by
    rw [indentStep, hB, lookupA_cons]
    norm_num
  have l1 : ∀ k : Nat, (msetA [(A.number, (0 : Int))] B.number 2).lookup k =
      if k = B.number then some 2 else if k = A.number then some 0 else none := by
    intro k
    rw [msetA_lookup, lookupA_cons]
    rfl
  have e2 : indentStep (msetA [(A.number, (0 : Int))] B.number 2) C =
      msetA (msetA [(A.number, 0)] B.number 2) C.number 4 := by
    rw [indentStep, hC, l1]
    norm_num
  have l2 : ∀ k : Nat,
      (msetA (msetA [(A.number, (0 : Int))] B.number 2) C.number 4).lookup k =
      if k = C.number then some 4
      else if k = B.number then some 2
      else if k = A.number then some 0 else none := by
    intro k
    rw [msetA_lookup, l1]
  have e3 : indentStep (msetA (msetA [(A.number, (0 : Int))] B.number 2) C.number 4) D =
      msetA (msetA (msetA [(A.number, 0)] B.number 2) C.number 4) D.number 2 := by
    rw [indentStep, hD, l2, if_neg hca.symm, if_neg hba.symm, if_pos rfl]
    norm_num
  have l3 : ∀ k : Nat,
      (msetA (msetA (msetA [(A.number, (0 : Int))] B.number 2) C.number 4)
        D.number 2).lookup k =
      if k = D.number then some 2
      else if k = C.number then some 4
      else if k = B.number then some 2
      else if k = A.number then some 0 else none := by
    intro k
    rw [msetA_lookup, l2]
  have hc : computeIndents [A, B, C, D] =
      msetA (msetA (msetA [(A.number, 0)] B.number 2) C.number 4) D.number 2 := by
    show List.foldl indentStep [(A.number, 0)] [B, C, D] = _
    simp only [List.foldl, e1, e2, e3]
  rw [hc]
  refine ⟨?_, ?_, ?_, ?_⟩
  · rw [l3, if_neg hda.symm, if_neg hca.symm, if_neg hba.symm, if_pos rfl]
  · rw [l3, if_neg hdb.symm, if_neg hcb.symm, if_pos rfl]
  · rw [l3, if_neg hdc.symm, if_pos rfl]
  · rw [l3, if_pos rfl]

/-- Witness for C7 with the ids 1, 2, 3, 4. -/
theorem c7_expansion_indents_witness :
    (computeIndents [{ baseNode with number := 1 },
                     { baseNode with number := 2, parent_number := 1 },
                     { baseNode with number := 3, parent_number := 2 },
                     { baseNode with number := 4, parent_number := 1 }]).lookup 1 =
      some 0 ∧
    (computeIndents [{ baseNode with number := 1 },
                     { baseNode with number := 2, parent_number := 1 },
                     { baseNode with number := 3, parent_number := 2 },
                     { baseNode with number := 4, parent_number := 1 }]).lookup 2 =
      some 2 ∧
    (computeIndents [{ baseNode with number := 1 },
                     { baseNode with number := 2, parent_number := 1 },
                     { baseNode with number := 3, parent_number := 2 },
                     { baseNode with number := 4, parent_number := 1 }]).lookup 3 =
      some 4 ∧
    (computeIndents [{ baseNode with number := 1 },
                     { baseNode with number := 2, parent_number := 1 },
                     { baseNode with number := 3, parent_number := 2 },
                     { baseNode with number := 4, parent_number := 1 }]).lookup 4 =
      some 2 :=
  c7_expansion_indents
    { baseNode with number := 1 }
    { baseNode with number := 2, parent_number := 1 }
    { baseNode with number := 3, parent_number := 2 }
    { baseNode with number := 4, parent_number := 1 }
    rfl rfl rfl (by decide) (by decide) (by decide) (by decide) (by decide)
    (by decide)

/-- Decoding inverts the delta encoding of the later items, given the
predecessor and the sort order along the list. -/
theorem decode_encodeRest (prev : SemTokItem) (rest : List SemTokItem)
    (h : List.Chain semTokLE prev rest) :
    decodeTokens prev.line prev.character (encodeRest prev rest) = rest := by
  induction rest generalizing prev with
  | nil => simp [encodeRest, decodeTokens]
  | cons item rest ih =>
    obtain ⟨hrel, hchain⟩ := List.chain_cons.mp h
    by_cases hl : item.line = prev.line
    · have hc : prev.character ≤ item.character := by
        rcases hrel with hlt | ⟨_, hle⟩
        · omega
        · exact hle
      have he : encodeRest prev (item :: rest) =
          0 :: (item.character - prev.character) :: item.length :: item.tokenType ::
            item.tokenModifier :: encodeRest item rest := by
        rw [encodeRest, if_pos hl]
        rfl
      rw [he]
      simp only [decodeTokens]
      norm_num
      rw [Nat.add_sub_cancel' hc, ← hl]
      exact ⟨rfl, ih item hchain⟩
    · have hlt : prev.line < item.line := by
        rcases hrel with hlt | ⟨heq, _⟩
        · exact hlt
        · exact absurd heq.symm hl
      have hdl : ¬(item.line - prev.line = 0) := by omega
      have he : encodeRest prev (item :: rest) =
          (item.line - prev.line) :: item.character :: item.length :: item.tokenType ::
            item.tokenModifier :: encodeRest item rest := by
        rw [encodeRest, if_neg hl]
        rfl
      rw [he]
      simp only [decodeTokens]
      rw [if_neg hdl, Nat.add_sub_cancel' (Nat.le_of_lt hlt)]
      exact congrArg _ (ih item hchain)

/-- C6: decoding the emitted delta encoding of a (line, character)
sorted semantic-token item list by accumulating deltaLine and
deltaStart reproduces exactly the original absolute tuples. -/
theorem c6_semantic_token_roundtrip (items : List SemTokItem)
    (hsorted : List.Chain' semTokLE items) :
    decodeTokens 0 0 (encodeTokens items) = items := by
  cases items with
  | nil => simp [encodeTokens, decodeTokens]
  | cons item rest =>
    have hchain : List.Chain semTokLE item rest := hsorted
    have he : encodeTokens (item :: rest) =
        item.line :: item.character :: item.length :: item.tokenType ::
          item.tokenModifier :: encodeRest item rest := rfl
    rw [he]
    simp only [decodeTokens]
    rw [Nat.zero_add]
    by_cases h0 : item.line = 0
    · rw [if_pos h0, Nat.zero_add]
      exact congrArg _ (decode_encodeRest item rest hchain)
    · rw [if_neg h0]
      exact congrArg _ (decode_encodeRest item rest hchain)

/-- Witness for C6 on a sorted three-token list crossing a line break. -/
theorem c6_semantic_token_roundtrip_witness :
    decodeTokens 0 0 (encodeTokens
      [⟨0, 1, 2, 0, 0⟩, ⟨0, 5, 1, 1, 0⟩, ⟨2, 0, 3, 0, 0⟩]) =
      [⟨0, 1, 2, 0, 0⟩, ⟨0, 5, 1, 1, 0⟩, ⟨2, 0, 3, 0, 0⟩] :=
  c6_semantic_token_roundtrip
    [⟨0, 1, 2, 0, 0⟩, ⟨0, 5, 1, 1, 0⟩, ⟨2, 0, 3, 0, 0⟩]
    (by simp [List.chain'_cons, List.Chain', semTokLE])

/-- If the redeclaration walk stops within the fuel, `lastDeclAux`
reaches a node with no further redeclaration, along `Query.next` steps. -/
theorem nextStops_lastDecl (db : DB) (fuel : Nat) (d : Node)
    (h : nextStopsWithin db fuel d = true) :
    Relation.ReflTransGen (fun a b => Query.next db a.ptr = some b) d
      (lastDeclAux db fuel d) ∧
    Query.next db (lastDeclAux db fuel d).ptr = none := by
  induction fuel generalizing d with
  | zero =>
    rw [nextStopsWithin, Option.isNone_iff_eq_none] at h
    exact ⟨Relation.ReflTransGen.refl, h⟩
  | succ fuel ih =>
    cases hn : Query.next db d.ptr with
    | none =>
      rw [lastDeclAux, hn]
      exact ⟨Relation.ReflTransGen.refl, hn⟩
    | some n =>
      rw [nextStopsWithin, hn] at h
      obtain ⟨hr, hs⟩ := ih n h
      rw [lastDeclAux, hn]
      exact ⟨Relation.ReflTransGen.head hn hr, hs⟩

/-- C2: `getDefinition` resolves `decl` through `refPtr` (else the node
itself); whenever that declaration exists the result is a declaration,
never none; for a FunctionDecl it is the node reached from `decl` by
repeatedly following the inverse of `prev` until none exists, and for
any other kind it is `decl` itself. -/
theorem c2_definition_resolution (db : DB) (node d : Node)
    (hdecl : declOf db node = some d)
    (hstop : nextStopsWithin db db.ast.length d = true) :
    ∃ r, getDefinition db node = some r ∧
      (d.kind = "FunctionDecl" →
        Relation.ReflTransGen (fun a b => Query.next db a.ptr = some b) d r ∧
        Query.next db r.ptr = none) ∧
      (d.kind ≠ "FunctionDecl" → r = d) := by
  simp only [getDefinition, hdecl]
  by_cases hk : d.kind = "FunctionDecl"
  · rw [if_pos hk]
    obtain ⟨hr, hs⟩ := nextStops_lastDecl db db.ast.length d hstop
    exact ⟨_, rfl, fun _ => ⟨hr, hs⟩, fun hnk => absurd hk hnk⟩
  · rw [if_neg hk]
    exact ⟨d, rfl, fun h => absurd h hk, fun _ => rfl⟩

/-- First declaration of the C2 witness chain (no body anywhere). -/
def c2f1 : Node :=
  { baseNode with kind := "FunctionDecl", ptr := "f1", number := 1 }

/-- Second declaration of the C2 witness chain. -/
def c2f2 : Node :=
  { baseNode with kind := "FunctionDecl", ptr := "f2", prev := some "f1", number := 2 }

/-- A reference expression resolving to the first declaration. -/
def c2ref : Node :=
  { baseNode with kind := "DeclRefExpr", ref_ptr := some "f1", number := 9 }

/-- The two-declaration snapshot of the C2 witness. -/
def c2db : DB := ⟨[c2f1, c2f2], [], [], []⟩

/-- Witness for C2: the reference resolves to some declaration, reached
by following the inverse of `prev` until none exists. -/
theorem c2_definition_resolution_witness :
    ∃ r, getDefinition c2db c2ref = some r ∧
      (c2f1.kind = "FunctionDecl" →
        Relation.ReflTransGen (fun a b => Query.next c2db a.ptr = some b) c2f1 r ∧
        Query.next c2db r.ptr = none) ∧
      (c2f1.kind ≠ "FunctionDecl" → r = c2f1) :=
  c2_definition_resolution c2db c2ref c2f1 (by decide) (by decide)

/-- If the `prev` walk stops within the fuel, the collected declaration
list is exactly the `prev` chain from the start node down to a node
whose step yields nothing. -/
theorem declStops_chain (db : DB) (fuel : Nat) (d : Node)
    (h : declStopsWithin db fuel d = true) :
    List.Chain (fun a b => declStep db a = some b) d (getDeclarationsAux db fuel d) ∧
    declStep db ((d :: getDeclarationsAux db fuel d).getLast (by simp)) = none := by
  induction fuel generalizing d with
  | zero =>
    rw [declStopsWithin, Option.isNone_iff_eq_none] at h
    exact ⟨List.Chain.nil, by simpa using h⟩
  | succ fuel ih =>
    cases hs : declStep db d with
    | none =>
      rw [getDeclarationsAux, hs]
      exact ⟨List.Chain.nil, by simpa using hs⟩
    | some d' =>
      rw [declStopsWithin, hs] at h
      obtain ⟨hc, hl⟩ := ih d' h
      rw [getDeclarationsAux, hs]
      refine ⟨List.chain_cons.mpr ⟨hs, hc⟩, ?_⟩
      rw [List.getLast_cons (List.cons_ne_nil _ _)]
      exact hl

/-- When every `prev` step decreases the preorder id, the collected
declarations all have ids below the start node's and the list is
strictly decreasing. -/
theorem declChain_numbers (db : DB) (fuel : Nat) (d : Node)
    (hd : ∀ b, declStep db d = some b → b.number < d.number)
    (hmono : ∀ a ∈ db.ast, ∀ b, declStep db a = some b → b.number < a.number) :
    (∀ x ∈ getDeclarationsAux db fuel d, x.number < d.number) ∧
    (getDeclarationsAux db fuel d).Pairwise (fun a b => b.number < a.number) := by
  induction fuel generalizing d with
  | zero => simp [getDeclarationsAux]
  | succ fuel ih =>
    cases hs : declStep db d with
    | none => simp [getDeclarationsAux, hs]
    | some d' =>
      have hd'mem : d' ∈ db.ast := by
        rw [declStep] at hs
        cases hp : d.prev with
        | none => rw [hp] at hs; cases hs
        | some p =>
          rw [hp] at hs
          exact List.mem_of_find?_eq_some hs
      obtain ⟨ih1, ih2⟩ := ih d' (fun b hb => hmono d' hd'mem b hb)
      have hdd' : d'.number < d.number := hd d' hs
      rw [getDeclarationsAux, hs]
      constructor
      · intro x hx
        rcases List.mem_cons.mp hx with rfl | hx'
        · exact hdd'
        · exact lt_trans (ih1 x hx') hdd'
      · exact List.pairwise_cons.mpr ⟨fun x hx => ih1 x hx, ih2⟩

/-- C1 (amended): `getDeclarations` collects exactly the nodes reached
by repeatedly following `prev` from the definition until the walk ends,
excluding the definition itself; the list has no duplicates and is
ordered newest first (strictly decreasing preorder ids), so walking it
forward follows `prev` itself. -/
theorem c1_declaration_chain (db : DB) (d : Node)
    (hstop : declStopsWithin db db.ast.length d = true)
    (hd : ∀ b, declStep db d = some b → b.number < d.number)
    (hmono : ∀ a ∈ db.ast, ∀ b, declStep db a = some b → b.number < a.number) :
    List.Chain (fun a b => declStep db a = some b) d (getDeclarations db d) ∧
    declStep db ((d :: getDeclarations db d).getLast (by simp)) = none ∧
    (getDeclarations db d).Pairwise (fun a b => b.number < a.number) ∧
    (getDeclarations db d).Nodup ∧
    d ∉ getDeclarations db d := by
  obtain ⟨hc, hl⟩ := declStops_chain db db.ast.length d hstop
  obtain ⟨hlt, hpw⟩ := declChain_numbers db db.ast.length d hd hmono
  refine ⟨hc, hl, hpw, ?_, ?_⟩
  · exact hpw.imp (fun h e => by subst e; exact absurd h (lt_irrefl _))
  · intro hmem
    exact absurd (hlt d hmem) (lt_irrefl _)

/-- Oldest declaration of the C1 chain (no `prev`). -/
def c1f1 : Node :=
  { baseNode with kind := "FunctionDecl", ptr := "p1", number := 1 }

/-- Middle declaration of the C1 chain. -/
def c1f2 : Node :=
  { baseNode with kind := "FunctionDecl", ptr := "p2", prev := some "p1", number := 2 }

/-- Newest declaration of the C1 chain. -/
def c1f3 : Node :=
  { baseNode with kind := "FunctionDecl", ptr := "p3", prev := some "p2", number := 3 }

/-- The three-declaration snapshot of the C1 chain. -/
def c1db : DB := ⟨[c1f1, c1f2, c1f3], [], [], []⟩

/-- Counterexample to C1 as stated: on a three-declaration chain the
collected list is `[c1f2, c1f1]` — the chronologically first
declaration `c1f1` (the one without `prev`) comes last, not first, so
the list is newest-first, not oldest-first, and walking it forward
follows `prev` itself rather than the inverse of `prev`. -/
theorem c1_oldest_first_cex :
    getDefinition c1db c1f1 = some c1f3 ∧
    getDeclarations c1db c1f3 = [c1f2, c1f1] ∧
    c1f1.prev = none ∧ c1f2.prev = some "p1" ∧ c1f2 ≠ c1f1 ∧
    (getDeclarations c1db c1f3).head? ≠ some c1f1 := by
  refine ⟨by decide, by decide, rfl, rfl, by decide, by decide⟩

/-- Witness for the amended C1 on the three-declaration chain. -/
theorem c1_declaration_chain_witness :
    List.Chain (fun a b => declStep c1db a = some b) c1f3 (getDeclarations c1db c1f3) ∧
    declStep c1db ((c1f3 :: getDeclarations c1db c1f3).getLast (by simp)) = none ∧
    (getDeclarations c1db c1f3).Pairwise (fun a b => b.number < a.number) ∧
    (getDeclarations c1db c1f3).Nodup ∧
    c1f3 ∉ getDeclarations c1db c1f3 := by
  refine c1_declaration_chain c1db c1f3 (by decide) ?_ ?_
  · intro b hb
    rw [show declStep c1db c1f3 = some c1f2 from rfl] at hb
    injection hb with h
    subst h
    decide
  · intro a ha b hb
    have ha3 : a = c1f1 ∨ a = c1f2 ∨ a = c1f3 := by
      simpa [c1db] using ha
    rcases ha3 with rfl | rfl | rfl
    · rw [show declStep c1db c1f1 = none from rfl] at hb
      cases hb
    · rw [show declStep c1db c1f2 = some c1f1 from rfl] at hb
      injection hb with h
      subst h
      decide
    · rw [show declStep c1db c1f3 = some c1f2 from rfl] at hb
      injection hb with h
      subst h
      decide

/-- The typedef node of the C8 scenario. -/
def u32node : Node :=
  { baseNode with
    kind := "TypedefDecl", name := some "u32",
    qualified_type := some "unsigned int", desugared_type := some "unsigned int" }

/-- Counterexample to C8 as stated: the hover renderer inserts a colon
between the bold name and the italic type, so the scenario node renders
`*typedef* **u32**: *unsigned int*`, not `*typedef* **u32** *unsigned
int*`. -/
theorem c8_typedef_hover_cex :
    hoverText ⟨[], [], [], []⟩ 1 u32node = .ok "*typedef* **u32**: *unsigned int*" ∧
    hoverText ⟨[], [], [], []⟩ 1 u32node ≠ .ok "*typedef* **u32** *unsigned int*" := by
  constructor
  · rfl
  · intro h
    rw [show hoverText ⟨[], [], [], []⟩ 1 u32node =
        Except.ok "*typedef* **u32**: *unsigned int*" from rfl] at h
    injection h with h'
    exact absurd h' (by decide)

/-- C8 (amended): a TypedefDecl named u32 with no specs, no aggregate
class, equal qualified and desugared types and no file origin renders
`*typedef* **u32**: *unsigned int*` — as claimed except for the colon
the renderer emits after the name, and with no code span since the
desugared type equals the qualified type. -/
theorem c8_typedef_hover (db : DB) (node : Node) (fuel : Nat)
    (hk : node.kind = "TypedefDecl") (hs : node.specs = 0) (hc : node.cls = 0)
    (hn : node.name = some "u32")
    (hq : node.qualified_type = some "unsigned int")
    (hd : node.desugared_type = some "unsigned int")
    (hb : node.begin_src = -1) (hf : 0 < fuel) :
    hoverText db fuel node = .ok "*typedef* **u32**: *unsigned int*" := by
  cases fuel with
  | zero => exact absurd hf (lt_irrefl 0)
  | succ m =>
    have h1 : hoverMark db (m + 1) node =
        Except.ok (MarkV.seq ([MarkV.emphasis "typedef", spaceM] ++
          [MarkV.strong "u32", colonM, spaceM, MarkV.emphasis "unsigned int"])) := by
      simp [hoverMark, hk, hs, hc, hn, hq, hd, hb, truthy, getSpecsMarks]
      rfl
    show (hoverMark db (m + 1) node).map markText = _
    rw [h1]
    rfl

/-- Witness for the amended C8 on the scenario node itself. -/
theorem c8_typedef_hover_witness :
    hoverText ⟨[], [], [], []⟩ 1 u32node = .ok "*typedef* **u32**: *unsigned int*" :=
  c8_typedef_hover ⟨[], [], [], []⟩ u32node 1 rfl rfl rfl rfl rfl rfl rfl
    (by decide)

/-- C5: two callee reference nodes that both resolve through
`getDefinition` to the same target produce exactly one outgoing-call
group for that target, whose fromRanges list has exactly the two call
sites' ranges (here both non-macro call sites, taking the selection
range branch). -/
theorem c5_outgoing_grouping (db : DB) (docs : String → TextDoc)
    (foo n1 n2 F : Node) (fooUri Furi : String) (Fr Fsel : LspRange)
    (hcallees : Query.callees db foo = [n1, n2])
    (h1 : getDefinition db n1 = some F) (h2 : getDefinition db n2 = some F)
    (he1 : n1.exp_row = 0) (he2 : n2.exp_row = 0)
    (hUriFoo : getUri db foo = .ok (some fooUri))
    (hLinkF : getLink db docs F = .ok (some (Furi, Fr, Fsel)))
    (hkind : getSymbolKind F ≠ 0) (hname : truthy F.name = true) :
    onOutgoingCalls db docs [foo] =
      .ok (some [{ target := F, uri := Furi, range := Fr, selectionRange := Fsel,
                   fromRanges := [(getRanges n1 (docs fooUri)).2,
                                  (getRanges n2 (docs fooUri)).2] }]) := by
  have hg1 : addCallee db (docs fooUri) [] n1 =
      [(F.ptr, F, [(getRanges n1 (docs fooUri)).2])] := by
    simp [addCallee, h1, lookupGroup, appendRangeIn, he1]
  have hg2 : addCallee db (docs fooUri)
        [(F.ptr, F, [(getRanges n1 (docs fooUri)).2])] n2 =
      [(F.ptr, F, [(getRanges n1 (docs fooUri)).2, (getRanges n2 (docs fooUri)).2])] := by
    simp [addCallee, h2, lookupGroup, appendRangeIn, he2]
  have hgroups : outgoingGroups db (docs fooUri) (Query.callees db foo) =
      [(F.ptr, F, [(getRanges n1 (docs fooUri)).2, (getRanges n2 (docs fooUri)).2])] := by
    rw [outgoingGroups, hcallees]
    simp only [List.foldl_cons, List.foldl_nil]
    rw [hg1, hg2]
  have hbuild : buildOutgoing db docs
        [(F.ptr, F, [(getRanges n1 (docs fooUri)).2, (getRanges n2 (docs fooUri)).2])] =
      .ok [{ target := F, uri := Furi, range := Fr, selectionRange := Fsel,
             fromRanges := [(getRanges n1 (docs fooUri)).2,
                            (getRanges n2 (docs fooUri)).2] }] := by
    simp [buildOutgoing, hLinkF, hkind, hname]
  simp only [onOutgoingCalls, hUriFoo, hgroups, hbuild]

/-- Decidable equality on `Except`, for evaluating accessor results on
concrete snapshots. -/
instance {e a : Type} [DecidableEq e] [DecidableEq a] : DecidableEq (Except e a) := fun x y =>
  match x, y with
  | .ok v, .ok w =>
    if h : v = w then isTrue (by rw [h])
    else isFalse (fun hc => by cases hc; exact h rfl)
  | .error v, .error w =>
    if h : v = w then isTrue (by rw [h])
    else isFalse (fun hc => by cases hc; exact h rfl)
  | .ok _, .error _ => isFalse (fun hc => by cases hc)
  | .error _, .ok _ => isFalse (fun hc => by cases hc)

/-- The target function of the C5 witness. -/
def c5F : Node :=
  { baseNode with
    kind := "FunctionDecl", ptr := "F1", name := some "f", number := 20,
    final_number := 20, begin_src := 1, row := 1, col := 1,
    end_row := 1, end_col := 2 }

/-- First call-site reference of the C5 witness. -/
def c5n1 : Node :=
  { baseNode with
    kind := "DeclRefExpr", ref_ptr := some "F1", ref_kind := some "Function",
    ancestors := ["CallExpr"], number := 2, begin_src := 1, row := 2, col := 1 }

/-- Second call-site reference of the C5 witness. -/
def c5n2 : Node :=
  { baseNode with
    kind := "DeclRefExpr", ref_ptr := some "F1", ref_kind := some "Function",
    ancestors := ["CallExpr"], number := 3, begin_src := 1, row := 3, col := 1 }

/-- The enclosing function of the C5 witness, covering ids 2..10. -/
def c5foo : Node :=
  { baseNode with
    kind := "FunctionDecl", ptr := "foo", name := some "foo", number := 1,
    final_number := 10, begin_src := 1 }

/-- The C5 witness snapshot. -/
def c5db : DB := ⟨[c5foo, c5n1, c5n2, c5F], [⟨1, "/a.c"⟩], [], []⟩

/-- A concrete document with 100-column lines for the C5 witness. -/
def c5doc : TextDoc := ⟨fun p => p.line * 100 + p.character, fun o => ⟨o / 100, o % 100⟩⟩

/-- The document environment of the C5 witness. -/
def c5docs : String → TextDoc := fun _ => c5doc

/-- Witness for C5: the two call sites to `F1` inside `c5foo` produce
one group with two ranges. -/
theorem c5_outgoing_grouping_witness :
    onOutgoingCalls c5db c5docs [c5foo] =
      .ok (some [{ target := c5F, uri := "file:///a.c",
                   range := (getRanges c5F (c5docs "file:///a.c")).1,
                   selectionRange := (getRanges c5F (c5docs "file:///a.c")).2,
                   fromRanges := [(getRanges c5n1 (c5docs "file:///a.c")).2,
                                  (getRanges c5n2 (c5docs "file:///a.c")).2] }]) :=
  c5_outgoing_grouping c5db c5docs c5foo c5n1 c5n2 c5F "file:///a.c" "file:///a.c"
    (getRanges c5F (c5docs "file:///a.c")).1 (getRanges c5F (c5docs "file:///a.c")).2
    rfl rfl rfl rfl rfl (by decide) (by decide) (by decide) rfl
